import Mathlib

/-!
Formal model of the Poseidon permutation chip of `src/circuits/poseidon.rs`
(zkWasm-host-circuits).

The chip builds constraint rows against a constraint-building context.  The
gate primitives of that context (`assign_constant`, `assign_line`,
`sum_with_constant`, `select`, `constrain_equal`) live in the repository's
`circuits` module outside the excerpt; they are modelled here from the design
document's description of the external interface (§6): every primitive
allocates fresh witness cells at the write cursor, records one constraint row
in a trace, computes the documented value, and advances the cursor by an
amount that depends only on the shape of its arguments (§5 requires the
cursor to be deterministic given the call sequence).

Everything in the `PoseidonState` / `PoseidonChip` namespaces is translated
directly from the Rust source.  The `reference*` definitions at the end of
the definition section form a non-circuit reference implementation of the
same permutation, written from the specification's round-schedule prose
(§4.2), used to state the refinement claims.
-/

namespace ZkWasmPoseidon

set_option linter.unusedSectionVars false

/-- A cell handle: the position of an allocated witness cell in the region. -/
abbrev Cell := Nat

/-- Source `Limb<F>`: a field value paired with an optional cell handle
(`None` for not-yet-assigned / constant values). -/
structure Limb (F : Type) where
  cell : Option Cell
  value : F
  deriving DecidableEq

/-- One emitted constraint row, recorded so that theorems can speak about the
number and the shape of the emissions made by a chip operation. -/
inductive Gate (F : Type) where
  | const : Cell → F → Gate F
  | line : List (Limb F) → List (Option F) → Gate F
  | sum : List (Limb F × F) → Option F → Limb F → Gate F
  | sel : Limb F → Limb F → Limb F → Limb F → Gate F
  | eq : Cell → Cell → Gate F
  deriving DecidableEq

/-- The constraint-building context threaded through every call:
`offset` is the monotonically advancing write cursor, `trace` the list of
emitted constraint rows, most recent first. -/
structure Builder (F : Type) where
  offset : Nat
  trace : List (Gate F)
  deriving DecidableEq

/-- Outcome of a fallible chip entry point: `ok` models Rust `Ok`,
`err` models a returned `Err(Error)` (recoverable, propagated), and
`panic` models a Rust panic (`assert!` / `unwrap` failure, process-fatal). -/
inductive BuildResult (α : Type) where
  | ok : α → BuildResult α
  | err : BuildResult α
  | panic : BuildResult α
  deriving DecidableEq

/-- Whether a `BuildResult` is a success. -/
def BuildResult.isOk {α : Type} : BuildResult α → Bool
  | .ok _ => true
  | _ => false

variable {F : Type} [CommRing F] [DecidableEq F]

/-- Modelled from the spec: `assignConstant(ctx, cursor, value) -> Cell`
allocates a cell fixed to a known constant (§6). -/
def CommonGateConfig.assign_constant (b : Builder F) (v : F) : Limb F × Builder F :=
  (⟨some b.offset, v⟩, ⟨b.offset + 1, Gate.const b.offset v :: b.trace⟩)

/-- Value enforced by `sumWithConstant`: the weighted sum of the input limbs
plus the optional constant (§6). -/
def sumValue (xs : List (Limb F × F)) (c : Option F) : F :=
  (xs.map fun p => p.1.value * p.2).sum + c.getD 0

/-- Modelled from the spec: `sumWithConstant(ctx, cursor, weightedCellList,
optionalConstant) -> Cell` emits a constraint enforcing the output equals the
weighted sum of inputs plus an optional constant (§6).  The cursor advance
depends only on the number of inputs. -/
def CommonGateConfig.sum_with_constant (b : Builder F) (xs : List (Limb F × F))
    (c : Option F) : Limb F × Builder F :=
  let out : Limb F := ⟨some b.offset, sumValue xs c⟩
  (out, ⟨b.offset + xs.length + 1, Gate.sum xs c out :: b.trace⟩)

/-- Modelled from the spec: `select(ctx, cursor, flagCell, a, b, tieBreak)`
emits a constraint enforcing the output equals one of the two candidate
limbs according to the flag; per §4.3 the flag is "a constrained
boolean-like value: nonzero = reset" and the chip passes
`(reset, currentState, defaultState)`, the reset (nonzero) case selecting
the default state.  The `round` tie-break argument has no semantic role
(§3: "not part of cryptographic correctness"). -/
def CommonGateConfig.select (b : Builder F) (cond whenZero whenNonzero : Limb F)
    (round : Nat) : Limb F × Builder F :=
  let _ := round
  let v := if cond.value = 0 then whenZero.value else whenNonzero.value
  let out : Limb F := ⟨some b.offset, v⟩
  (out, ⟨b.offset + 2, Gate.sel cond whenZero whenNonzero out :: b.trace⟩)

/-- Modelled from the spec: `assignLinearOrQuadraticRow` (source name
`assign_line`) emits one constraint row enforcing a designated
linear/quadratic relation among referenced and newly produced cells and
returns the newly produced cells (§6): each present operand limb is
assigned a fresh cell in order, keeping its value. -/
def CommonGateConfig.assign_line (b : Builder F) (limbs : List (Option (Limb F)))
    (coeffs : List (Option F)) : List (Limb F) × Builder F :=
  let xs := limbs.reduceOption
  let assigned := xs.enum.map fun p => (⟨some (b.offset + p.1), p.2.value⟩ : Limb F)
  (assigned, ⟨b.offset + xs.length, Gate.line assigned coeffs :: b.trace⟩)

/-- Modelled from the spec: `constrainEqual(cellA, cellB)` emits a constraint
forcing two previously produced cells to be equal (§6). -/
def Region.constrain_equal (b : Builder F) (c1 c2 : Cell) : Builder F :=
  { b with trace := Gate.eq c1 c2 :: b.trace }

/-- The sparse MDS matrix of the external `poseidon` crate: a row vector plus
a "column-hat" vector (§3, opaque external parameter object). -/
structure SparseMDSMatrix (F : Type) where
  row : List F
  col_hat : List F
  deriving DecidableEq

/-- The external algorithm specification object (§3), exposing exactly what
`permute` consumes: the full-round count `r_f`, the dense MDS rows, the
pre-sparse MDS rows, the sparse matrices (one per partial round), and the
round-constant schedule split into start / partial / end phases. -/
structure Spec (F : Type) where
  r_f : Nat
  mds : List (List F)
  pre_sparse_mds : List (List F)
  sparse_matrices : List (SparseMDSMatrix F)
  startConsts : List (List F)
  partialConsts : List F
  endConsts : List (List F)
  deriving DecidableEq

/-- Source `PoseidonState<F, T>`: the working state vector, the canonical
freshly-reset `default` vector, and the domain-separation prefix constants
(source field `prefix`, renamed because Lean reserves the word). -/
structure PoseidonState (F : Type) where
  state : List (Limb F)
  default : List (Limb F)
  prefix_consts : List (Limb F)
  deriving DecidableEq

/-- Source `PoseidonChip<F, T, RATE>`: the algorithm specification, the
permutation state and the round tie-break counter.  The `config` field is the
gate context, modelled by the free `CommonGateConfig` primitives above. -/
structure PoseidonChip (F : Type) where
  spec : Spec F
  poseidon_state : PoseidonState F
  round : Nat
  deriving DecidableEq

/-- Fixed host-side domain-separation tag (outside the excerpt).
Modelled from the spec: only its identity and its position in the prefix
list matter (§3), so a placeholder numeric value is used. -/
def PREFIX_CHALLENGE : Nat := 0

/-- Fixed host-side domain-separation tag (outside the excerpt).
Modelled from the spec: only its identity and its position in the prefix
list matter (§3), so a placeholder numeric value is used. -/
def PREFIX_POINT : Nat := 1

/-- Fixed host-side domain-separation tag (outside the excerpt).
Modelled from the spec: only its identity and its position in the prefix
list matter (§3), so a placeholder numeric value is used. -/
def PREFIX_SCALAR : Nat := 2

/-- Source `PoseidonChip::construct`: a chip whose state and default are `T`
unassigned zero limbs and whose prefix list is empty. -/
def PoseidonChip.construct (spec : Spec F) (T : Nat) : PoseidonChip F :=
  { spec := spec
    poseidon_state :=
      { state := List.replicate T ⟨none, 0⟩
        default := List.replicate T ⟨none, 0⟩
        prefix_consts := [] }
    round := 0 }

/-- Source `PoseidonState::initialize`: reset the cursor to 0, allocate a
constrained zero, build `default` as `[2^64, zero, …, zero]`, copy it into
`state`, and allocate the three domain-separation prefix constants in the
order challenge, point, scalar. -/
def PoseidonState.initialize (ps : PoseidonState F) (b : Builder F) :
    PoseidonState F × Builder F :=
  let b0 : Builder F := { b with offset := 0 }
  let pz := CommonGateConfig.assign_constant b0 (0 : F)
  let pc := CommonGateConfig.assign_constant pz.2 (((2 ^ 64 : Nat) : F))
  let st := (List.replicate ps.state.length pz.1).set 0 pc.1
  let p1 := CommonGateConfig.assign_constant pc.2 ((PREFIX_CHALLENGE : Nat) : F)
  let p2 := CommonGateConfig.assign_constant p1.2 ((PREFIX_POINT : Nat) : F)
  let p3 := CommonGateConfig.assign_constant p2.2 ((PREFIX_SCALAR : Nat) : F)
  ({ state := st, default := st, prefix_consts := [p1.1, p2.1, p3.1] }, p3.2)

/-- Source `PoseidonState::x_power5_with_constant`: three chained
`assign_line` rows computing `x*x`, `(x*x)*(x*x)` and `x4*x + constant`,
each returning the limb at index 2 of the allocated cells. -/
def x_power5_with_constant (b : Builder F) (x : Limb F) (constant : F) :
    Limb F × Builder F :=
  let p1 := CommonGateConfig.assign_line b
    [some x, none, none, some x, some ⟨none, x.value * x.value⟩, none]
    [none, none, none, none, some (-1), none, some 1, none, none]
  let xx := p1.1.getD 2 ⟨none, 0⟩
  let p2 := CommonGateConfig.assign_line p1.2
    [some xx, none, none, some xx, some ⟨none, xx.value * xx.value⟩, none]
    [none, none, none, none, some (-1), none, some 1, none, none]
  let x4 := p2.1.getD 2 ⟨none, 0⟩
  let p3 := CommonGateConfig.assign_line p2.2
    [some x, none, none, some x4, some ⟨none, x4.value * x.value + constant⟩, none]
    [none, none, none, none, some (-1), none, some 1, none, some constant]
  (p3.1.getD 2 ⟨none, 0⟩, p3.2)

/-- Source `PoseidonState::sbox_full`: apply the S-box to every state slot
paired with its round constant (`iter_mut().zip(constants)`). -/
def sbox_full (b : Builder F) (st : List (Limb F)) (cs : List F) :
    List (Limb F) × Builder F :=
  match st, cs with
  | [], _ => ([], b)
  | st, [] => (st, b)
  | x :: xs, c :: cs =>
      let p := x_power5_with_constant b x c
      let q := sbox_full p.2 xs cs
      (p.1 :: q.1, q.2)

/-- Source `PoseidonState::sbox_part`: apply the S-box to slot 0 only.
(The empty case is unreachable in the source, where the state is a `[Limb; T]`
array with `T ≥ 1`.) -/
def sbox_part (b : Builder F) (st : List (Limb F)) (c : F) :
    List (Limb F) × Builder F :=
  match st with
  | [] => ([], b)
  | x :: xs =>
      let p := x_power5_with_constant b x c
      (p.1 :: xs, p.2)

/-- The loop of `absorb_with_pre_constants`: slots `1..` are updated to
`state[i] + input[i-1] + constant[i]`; the triple zip stops at the shortest
list, leaving the remaining slots untouched (`iter_mut`). -/
def absorbRest (b : Builder F) :
    List (Limb F) → List F → List (Limb F) → List (Limb F) × Builder F
  | x :: xs, c :: cs, i :: is =>
      let p := CommonGateConfig.sum_with_constant b [(x, 1), (i, 1)] (some c)
      let q := absorbRest p.2 xs cs is
      (p.1 :: q.1, q.2)
  | xs, _, _ => (xs, b)

/-- Source `PoseidonState::absorb_with_pre_constants`: slot 0 becomes
`state[0] + pre_constants[0]`, then the remaining slots absorb the inputs.
(The empty case is unreachable in the source, where `T ≥ 1`.) -/
def absorb_with_pre_constants (b : Builder F) (st : List (Limb F))
    (inputs : List (Limb F)) (pre : List F) : List (Limb F) × Builder F :=
  match st with
  | [] => ([], b)
  | s0 :: rest =>
      let p := CommonGateConfig.sum_with_constant b [(s0, 1)] (some (pre.getD 0 0))
      let q := absorbRest p.2 rest (pre.drop 1) inputs
      (p.1 :: q.1, q.2)

/-- The row map of `apply_mds`: one `sum_with_constant` per matrix row over
the zip of the state with the row. -/
def apply_mds_rows (b : Builder F) (st : List (Limb F)) :
    List (List F) → List (Limb F) × Builder F
  | [] => ([], b)
  | row :: rows =>
      let p := CommonGateConfig.sum_with_constant b (st.zip row) none
      let q := apply_mds_rows p.2 st rows
      (p.1 :: q.1, q.2)

/-- Source `PoseidonState::apply_mds`: the new state is the list of dense row
sums (`self.state = res.try_into().unwrap()`; the unwrap cannot fail in the
source because the matrix is a `[[F; T]; T]`). -/
def apply_mds (b : Builder F) (st : List (Limb F)) (m : List (List F)) :
    List (Limb F) × Builder F :=
  apply_mds_rows b st m

/-- The tail loop of `apply_sparse_mds`: for each `col_hat` entry paired with
a tail slot, emit `state[0] * e + slot` (reading the pre-update slot 0). -/
def sparseTail (b : Builder F) (c : Limb F) :
    List F → List (Limb F) → List (Limb F) × Builder F
  | e :: es, x :: xs =>
      let p := CommonGateConfig.sum_with_constant b [(c, e), (x, 1)] none
      let q := sparseTail p.2 c es xs
      (p.1 :: q.1, q.2)
  | _, _ => ([], b)

/-- The final write-back loop of `apply_sparse_mds`
(`state.iter_mut().zip(res)`): the first `res.length` slots are overwritten,
any remaining slots keep their old value, and surplus results are dropped. -/
def overwrite {α : Type} (st res : List α) : List α :=
  res.take st.length ++ st.drop res.length

/-- Source `PoseidonState::apply_sparse_mds`: new slot 0 is the dense
combination of the state with the matrix's row vector; each further slot `i`
becomes `state[0] * col_hat[i-1] + state[i]` using the pre-update slot 0. -/
def apply_sparse_mds (b : Builder F) (st : List (Limb F))
    (m : SparseMDSMatrix F) : List (Limb F) × Builder F :=
  let p := CommonGateConfig.sum_with_constant b (st.zip m.row) none
  let q := sparseTail p.2 (st.getD 0 ⟨none, 0⟩) m.col_hat (st.drop 1)
  (overwrite st (p.1 :: q.1), q.2)

/-- One block of full rounds: for each constant vector, full S-box then a
dense MDS mix (the two `for` loops of `permute` over the start tail and the
end constants). -/
def fullRounds (mds : List (List F)) :
    Builder F → List (Limb F) → List (List F) → List (Limb F) × Builder F
  | b, st, [] => (st, b)
  | b, st, cs :: rest =>
      let p := sbox_full b st cs
      let q := apply_mds p.2 p.1 mds
      fullRounds mds q.2 q.1 rest

/-- The partial-round loop of `permute`: for each partial constant paired
with its sparse matrix, partial S-box then sparse mix. -/
def partialRounds :
    Builder F → List (Limb F) → List (F × SparseMDSMatrix F) →
    List (Limb F) × Builder F
  | b, st, [] => (st, b)
  | b, st, (c, m) :: rest =>
      let p := sbox_part b st c
      let q := apply_sparse_mds p.2 p.1 m
      partialRounds q.2 q.1 rest

/-- Source `PoseidonState::permute`: absorb with the first start-constant
vector, run `r_f/2 - 1` full rounds, one transition round mixed with the
pre-sparse matrix, the partial rounds with their sparse matrices, the end
full rounds, and a final zero-constant S-box pass plus dense mix.
(`constants[0]` and `constants.last().unwrap()` are modelled with defaults;
the external crate guarantees a non-empty start schedule.) -/
def PoseidonState.permute (ps : PoseidonState F) (spec : Spec F)
    (b : Builder F) (inputs : List (Limb F)) : PoseidonState F × Builder F :=
  let rf := spec.r_f / 2
  let mds := spec.mds
  let p1 := absorb_with_pre_constants b ps.state inputs (spec.startConsts.getD 0 [])
  let p2 := fullRounds mds p1.2 p1.1 ((spec.startConsts.drop 1).take (rf - 1))
  let p3 := sbox_full p2.2 p2.1 (spec.startConsts.getLastD [])
  let p4 := apply_mds p3.2 p3.1 spec.pre_sparse_mds
  let p5 := partialRounds p4.2 p4.1 (spec.partialConsts.zip spec.sparse_matrices)
  let p6 := fullRounds mds p5.2 p5.1 spec.endConsts
  let p7 := sbox_full p6.2 p6.1 (List.replicate p6.1.length (0 : F))
  let p8 := apply_mds p7.2 p7.1 mds
  ({ ps with state := p8.1 }, p8.2)

/-- The selection loop of `get_permute_result`: for every `(state, default)`
pair, select according to the reset flag. -/
def selectState (round : Nat) (reset : Limb F) :
    Builder F → List (Limb F × Limb F) → List (Limb F) × Builder F
  | b, [] => ([], b)
  | b, (v, d) :: rest =>
      let p := CommonGateConfig.select b reset v d round
      let q := selectState round reset p.2 rest
      (p.1 :: q.1, q.2)

/-- Source `PoseidonChip::get_permute_result`: build the working state by
selecting per slot between the accumulated state and the default state,
run the permutation on it, and return the state element at index 1. -/
def PoseidonChip.get_permute_result (chip : PoseidonChip F) (b : Builder F)
    (values : List (Limb F)) (reset : Limb F) :
    Limb F × PoseidonChip F × Builder F :=
  let p := selectState chip.round reset b
    (chip.poseidon_state.state.zip chip.poseidon_state.default)
  let st1 : PoseidonState F := { chip.poseidon_state with state := p.1 }
  let q := PoseidonState.permute st1 chip.spec p.2 values
  (q.1.state.getD 1 ⟨none, 0⟩, { chip with poseidon_state := q.1 }, q.2)

/-- Source `PoseidonChip::assign_permute`: compute the permutation result,
`assert!` that its value equals the claimed result's value (panic on
mismatch), `unwrap` both cell handles (panic when absent), and emit the
equality constraint between the two cells. -/
def PoseidonChip.assign_permute (chip : PoseidonChip F) (b : Builder F)
    (values : List (Limb F)) (reset : Limb F) (result : Limb F) :
    BuildResult (PoseidonChip F × Builder F) :=
  let p := chip.get_permute_result b values reset
  if p.1.value = result.value then
    match result.cell, p.1.cell with
    | some c1, some c2 => .ok (p.2.1, Region.constrain_equal p.2.2 c1 c2)
    | _, _ => .panic
  else .panic

/-! ### Reference (non-circuit) implementation

Written from the specification's round-schedule prose (§4.2, §8): the same
permutation algorithm on plain field values, with no constraint emission.
Used to state the refinement claims. -/

/-- Reference S-box (spec glossary): `x ↦ x^5 + constant`. -/
def referenceSbox (x c : F) : F := x ^ 5 + c

/-- Reference full-round S-box: apply the S-box to every slot with its
round constant. -/
def referenceSboxFull : List F → List F → List F
  | [], _ => []
  | st, [] => st
  | x :: xs, c :: cs => referenceSbox x c :: referenceSboxFull xs cs

/-- Reference partial-round S-box: apply the S-box to slot 0 only. -/
def referenceSboxPart (st : List F) (c : F) : List F :=
  match st with
  | [] => []
  | x :: xs => referenceSbox x c :: xs

/-- Reference absorb for slots `1..`: `state[i] + input[i-1] + constant[i]`. -/
def referenceAbsorbRest : List F → List F → List F → List F
  | x :: xs, c :: cs, i :: is => (x + i + c) :: referenceAbsorbRest xs cs is
  | xs, _, _ => xs

/-- Reference absorb (spec §4.2 step 1): slot 0 becomes
`state[0] + startConst[0]`; slots `1..RATE` absorb the external inputs. -/
def referenceAbsorb (st inputs pre : List F) : List F :=
  match st with
  | [] => []
  | s0 :: rest => (s0 + pre.getD 0 0) :: referenceAbsorbRest rest (pre.drop 1) inputs

/-- Dense linear combination of the state with one matrix row. -/
def referenceDot (st row : List F) : F := ((st.zip row).map fun p => p.1 * p.2).sum

/-- Reference dense MDS mix: every new slot is a row combination. -/
def referenceApplyMds (st : List F) (m : List (List F)) : List F :=
  m.map (referenceDot st)

/-- Reference sparse MDS mix (spec §4.2 step 4): new slot 0 is the dense
combination with the row vector; slot `i` becomes
`slot0 * colHat[i-1] + slot[i]` with the pre-update slot 0. -/
def referenceApplySparse (st : List F) (m : SparseMDSMatrix F) : List F :=
  let s0 := st.getD 0 0
  overwrite st (referenceDot st m.row ::
    ((m.col_hat.zip (st.drop 1)).map fun p => s0 * p.1 + p.2))

/-- Reference full-round block: S-box on every slot, then dense MDS mix. -/
def referenceFullRounds (mds : List (List F)) : List F → List (List F) → List F
  | st, [] => st
  | st, cs :: rest =>
      referenceFullRounds mds (referenceApplyMds (referenceSboxFull st cs) mds) rest

/-- Reference partial-round block: partial S-box, then sparse mix. -/
def referencePartialRounds : List F → List (F × SparseMDSMatrix F) → List F
  | st, [] => st
  | st, (c, m) :: rest =>
      referencePartialRounds (referenceApplySparse (referenceSboxPart st c) m) rest

/-- The non-circuit reference Poseidon permutation (spec §4.2): absorb,
first full-round block, transition round with the pre-sparse matrix,
partial rounds, final full-round block, and output whitening round. -/
def referencePermute (spec : Spec F) (st : List F) (inputs : List F) : List F :=
  let rf := spec.r_f / 2
  let s1 := referenceAbsorb st inputs (spec.startConsts.getD 0 [])
  let s2 := referenceFullRounds spec.mds s1 ((spec.startConsts.drop 1).take (rf - 1))
  let s3 := referenceSboxFull s2 (spec.startConsts.getLastD [])
  let s4 := referenceApplyMds s3 spec.pre_sparse_mds
  let s5 := referencePartialRounds s4 (spec.partialConsts.zip spec.sparse_matrices)
  let s6 := referenceFullRounds spec.mds s5 spec.endConsts
  let s7 := referenceSboxFull s6 (List.replicate s6.length (0 : F))
  referenceApplyMds s7 spec.mds

/-! ### Value simulation: the circuit computes the reference values -/

lemma x_power5_value (b : Builder F) (x : Limb F) (c : F) :
    (x_power5_with_constant b x c).1.value = x.value ^ 5 + c := by
  show x.value * x.value * (x.value * x.value) * x.value + c = x.value ^ 5 + c
  ring

lemma x_power5_offset (b : Builder F) (x : Limb F) (c : F) :
    (x_power5_with_constant b x c).2.offset = b.offset + 9 := rfl

lemma sbox_full_value (b : Builder F) (st : List (Limb F)) (cs : List F) :
    (sbox_full b st cs).1.map Limb.value = referenceSboxFull (st.map Limb.value) cs := by
  induction st generalizing b cs with
  | nil => cases cs <;> simp [sbox_full, referenceSboxFull]
  | cons x xs ih =>
    cases cs with
    | nil => simp [sbox_full, referenceSboxFull]
    | cons c cs =>
        simp [sbox_full, referenceSboxFull, referenceSbox, ih, x_power5_value]

lemma sbox_full_length (b : Builder F) (st : List (Limb F)) (cs : List F) :
    (sbox_full b st cs).1.length = st.length := by
  induction st generalizing b cs with
  | nil => cases cs <;> simp [sbox_full]
  | cons x xs ih =>
    cases cs with
    | nil => simp [sbox_full]
    | cons c cs => simp [sbox_full, ih]

lemma sbox_part_value (b : Builder F) (st : List (Limb F)) (c : F) :
    (sbox_part b st c).1.map Limb.value = referenceSboxPart (st.map Limb.value) c := by
  cases st with
  | nil => simp [sbox_part, referenceSboxPart]
  | cons x xs => simp [sbox_part, referenceSboxPart, referenceSbox, x_power5_value]

lemma sbox_part_length (b : Builder F) (st : List (Limb F)) (c : F) :
    (sbox_part b st c).1.length = st.length := by
  cases st with
  | nil => simp [sbox_part]
  | cons x xs => simp [sbox_part]

lemma absorbRest_value (b : Builder F) (xs : List (Limb F)) (cs : List F)
    (is : List (Limb F)) :
    (absorbRest b xs cs is).1.map Limb.value =
      referenceAbsorbRest (xs.map Limb.value) cs (is.map Limb.value) := by
  induction xs generalizing b cs is with
  | nil => cases cs <;> cases is <;> simp [absorbRest, referenceAbsorbRest]
  | cons x xs ih =>
    cases cs with
    | nil => simp [absorbRest, referenceAbsorbRest]
    | cons c cs =>
      cases is with
      | nil => simp [absorbRest, referenceAbsorbRest]
      | cons i is =>
          simp [absorbRest, referenceAbsorbRest, ih,
            CommonGateConfig.sum_with_constant, sumValue]

lemma absorbRest_length (b : Builder F) (xs : List (Limb F)) (cs : List F)
    (is : List (Limb F)) : (absorbRest b xs cs is).1.length = xs.length := by
  induction xs generalizing b cs is with
  | nil => cases cs <;> cases is <;> simp [absorbRest]
  | cons x xs ih =>
    cases cs with
    | nil => simp [absorbRest]
    | cons c cs =>
      cases is with
      | nil => simp [absorbRest]
      | cons i is => simp [absorbRest, ih]

lemma absorb_value (b : Builder F) (st : List (Limb F)) (inputs : List (Limb F))
    (pre : List F) :
    (absorb_with_pre_constants b st inputs pre).1.map Limb.value =
      referenceAbsorb (st.map Limb.value) (inputs.map Limb.value) pre := by
  cases st with
  | nil => simp [absorb_with_pre_constants, referenceAbsorb]
  | cons s0 rest =>
      simp [absorb_with_pre_constants, referenceAbsorb, absorbRest_value,
        CommonGateConfig.sum_with_constant, sumValue]

lemma absorb_length (b : Builder F) (st : List (Limb F)) (inputs : List (Limb F))
    (pre : List F) :
    (absorb_with_pre_constants b st inputs pre).1.length = st.length := by
  cases st with
  | nil => simp [absorb_with_pre_constants]
  | cons s0 rest => simp [absorb_with_pre_constants, absorbRest_length]

lemma sumValue_zip (st : List (Limb F)) (row : List F) :
    sumValue (st.zip row) none = referenceDot (st.map Limb.value) row := by
  induction st generalizing row with
  | nil => simp [sumValue, referenceDot]
  | cons x xs ih =>
    cases row with
    | nil => simp [sumValue, referenceDot]
    | cons r rs =>
        have h := ih rs
        simp [sumValue, referenceDot] at h ⊢
        simpa using h

lemma apply_mds_rows_value (b : Builder F) (st : List (Limb F))
    (rows : List (List F)) :
    (apply_mds_rows b st rows).1.map Limb.value =
      referenceApplyMds (st.map Limb.value) rows := by
  induction rows generalizing b with
  | nil => simp [apply_mds_rows, referenceApplyMds]
  | cons row rest ih =>
      simp [apply_mds_rows, referenceApplyMds] at ih ⊢
      simp [CommonGateConfig.sum_with_constant, sumValue_zip, ih]

lemma apply_mds_rows_length (b : Builder F) (st : List (Limb F))
    (rows : List (List F)) :
    (apply_mds_rows b st rows).1.length = rows.length := by
  induction rows generalizing b with
  | nil => simp [apply_mds_rows]
  | cons row rest ih => simp [apply_mds_rows, ih]

lemma value_getD (st : List (Limb F)) (n : Nat) (d : Limb F) :
    (st.getD n d).value = (st.map Limb.value).getD n d.value := by
  induction st generalizing n with
  | nil => simp
  | cons x xs ih => cases n <;> simp [ih]

lemma overwrite_length {α : Type} (st res : List α) :
    (overwrite st res).length = st.length := by
  simp [overwrite]
  omega

lemma overwrite_map {α β : Type} (f : α → β) (st res : List α) :
    (overwrite st res).map f = overwrite (st.map f) (res.map f) := by
  simp [overwrite]

lemma sparseTail_value (es : List F) :
    ∀ (b : Builder F) (c : Limb F) (xs : List (Limb F)),
    (sparseTail b c es xs).1.map Limb.value =
      (es.zip (xs.map Limb.value)).map fun p => c.value * p.1 + p.2 := by
  induction es with
  | nil => intro b c xs; cases xs <;> simp [sparseTail]
  | cons e es ih =>
    intro b c xs
    cases xs with
    | nil => simp [sparseTail]
    | cons x xs =>
        simp [sparseTail, ih, CommonGateConfig.sum_with_constant, sumValue]

lemma sparseTail_length (es : List F) :
    ∀ (b : Builder F) (c : Limb F) (xs : List (Limb F)),
    (sparseTail b c es xs).1.length = min es.length xs.length := by
  induction es with
  | nil => intro b c xs; cases xs <;> simp [sparseTail]
  | cons e es ih =>
    intro b c xs
    cases xs with
    | nil => simp [sparseTail]
    | cons x xs => simp [sparseTail, ih, Nat.succ_min_succ]

lemma apply_sparse_value (b : Builder F) (st : List (Limb F)) (m : SparseMDSMatrix F) :
    (apply_sparse_mds b st m).1.map Limb.value =
      referenceApplySparse (st.map Limb.value) m := by
  have h0 : ∀ o : Option (Limb F),
      (o.getD ⟨none, 0⟩).value = (o.map Limb.value).getD 0 := by
    intro o; cases o <;> rfl
  simp [apply_sparse_mds, referenceApplySparse, overwrite_map, sparseTail_value,
    CommonGateConfig.sum_with_constant, sumValue_zip, h0, List.map_drop]

lemma apply_sparse_length (b : Builder F) (st : List (Limb F)) (m : SparseMDSMatrix F) :
    (apply_sparse_mds b st m).1.length = st.length := by
  simp [apply_sparse_mds, overwrite_length]

lemma fullRounds_value (mds : List (List F)) (csl : List (List F)) :
    ∀ (b : Builder F) (st : List (Limb F)),
    (fullRounds mds b st csl).1.map Limb.value =
      referenceFullRounds mds (st.map Limb.value) csl := by
  induction csl with
  | nil => intro b st; simp [fullRounds, referenceFullRounds]
  | cons cs rest ih =>
      intro b st
      have h1 := sbox_full_value b st cs
      have h2 := apply_mds_rows_value (sbox_full b st cs).2 (sbox_full b st cs).1 mds
      simp only [fullRounds, referenceFullRounds, apply_mds]
      rw [ih, h2, h1]

lemma fullRounds_length_cons (mds : List (List F)) (cs : List F) (rest : List (List F)) :
    ∀ (b : Builder F) (st : List (Limb F)),
    (fullRounds mds b st (cs :: rest)).1.length = mds.length := by
  induction rest generalizing cs with
  | nil =>
      intro b st
      simp [fullRounds, apply_mds, apply_mds_rows_length]
  | cons cs' rest ih =>
      intro b st
      simp only [fullRounds, apply_mds]
      exact ih cs' _ _

lemma partialRounds_value (l : List (F × SparseMDSMatrix F)) :
    ∀ (b : Builder F) (st : List (Limb F)),
    (partialRounds b st l).1.map Limb.value =
      referencePartialRounds (st.map Limb.value) l := by
  induction l with
  | nil => intro b st; simp [partialRounds, referencePartialRounds]
  | cons p rest ih =>
      intro b st
      obtain ⟨c, m⟩ := p
      have h1 := sbox_part_value b st c
      have h2 := apply_sparse_value (sbox_part b st c).2 (sbox_part b st c).1 m
      simp only [partialRounds, referencePartialRounds]
      rw [ih, h2, h1]

lemma partialRounds_length (l : List (F × SparseMDSMatrix F)) :
    ∀ (b : Builder F) (st : List (Limb F)),
    (partialRounds b st l).1.length = st.length := by
  induction l with
  | nil => intro b st; simp [partialRounds]
  | cons p rest ih =>
      intro b st
      obtain ⟨c, m⟩ := p
      simp only [partialRounds]
      rw [ih, apply_sparse_length, sbox_part_length]

/-- The output whitening round (final zero-constant S-box pass plus dense
mix) computes the reference values. -/
lemma whiten_value (mds : List (List F)) (b : Builder F) (st : List (Limb F)) :
    (apply_mds_rows (sbox_full b st (List.replicate st.length (0 : F))).2
        (sbox_full b st (List.replicate st.length (0 : F))).1 mds).1.map Limb.value =
      referenceApplyMds
        (referenceSboxFull (st.map Limb.value)
          (List.replicate (st.map Limb.value).length (0 : F))) mds := by
  rw [apply_mds_rows_value, sbox_full_value, List.length_map]

/-- The circuit permutation computes exactly the reference permutation's
values, slot by slot. -/
lemma permute_value (ps : PoseidonState F) (spec : Spec F) (b : Builder F)
    (inputs : List (Limb F)) :
    (ps.permute spec b inputs).1.state.map Limb.value =
      referencePermute spec (ps.state.map Limb.value) (inputs.map Limb.value) := by
  simp only [PoseidonState.permute, referencePermute, apply_mds]
  rw [whiten_value, fullRounds_value, partialRounds_value, apply_mds_rows_value,
    sbox_full_value, fullRounds_value, absorb_value]

/-! ### Cursor determinism: offsets depend only on call shapes -/

lemma sum_offset (b : Builder F) (xs : List (Limb F × F)) (c : Option F) :
    (CommonGateConfig.sum_with_constant b xs c).2.offset = b.offset + xs.length + 1 :=
  rfl

lemma sbox_full_pair (cs : List F) :
    ∀ (st1 st2 : List (Limb F)) (b1 b2 : Builder F),
    b1.offset = b2.offset → st1.length = st2.length →
    (sbox_full b1 st1 cs).2.offset = (sbox_full b2 st2 cs).2.offset := by
  induction cs with
  | nil =>
      intro st1 st2 b1 b2 hoff _
      cases st1 <;> cases st2 <;> simpa [sbox_full] using hoff
  | cons c cs ih =>
      intro st1 st2 b1 b2 hoff hlen
      cases st1 with
      | nil =>
          cases st2 with
          | nil => simpa [sbox_full] using hoff
          | cons y ys => simp at hlen
      | cons x xs =>
          cases st2 with
          | nil => simp at hlen
          | cons y ys =>
              simp only [sbox_full]
              apply ih
              · simp [x_power5_offset, hoff]
              · simpa using hlen

lemma sbox_part_pair (c : F) (st1 st2 : List (Limb F)) (b1 b2 : Builder F)
    (hoff : b1.offset = b2.offset) (hlen : st1.length = st2.length) :
    (sbox_part b1 st1 c).2.offset = (sbox_part b2 st2 c).2.offset := by
  cases st1 with
  | nil =>
      cases st2 with
      | nil => simpa [sbox_part] using hoff
      | cons y ys => simp at hlen
  | cons x xs =>
      cases st2 with
      | nil => simp at hlen
      | cons y ys => simp [sbox_part, x_power5_offset, hoff]

lemma absorbRest_pair :
    ∀ (xs1 : List (Limb F)) (cs : List F) (is1 xs2 is2 : List (Limb F))
      (b1 b2 : Builder F),
    b1.offset = b2.offset → xs1.length = xs2.length → is1.length = is2.length →
    (absorbRest b1 xs1 cs is1).2.offset = (absorbRest b2 xs2 cs is2).2.offset := by
  intro xs1
  induction xs1 with
  | nil =>
      intro cs is1 xs2 is2 b1 b2 hoff hx _
      cases xs2 with
      | nil => cases cs <;> cases is1 <;> cases is2 <;> simpa [absorbRest] using hoff
      | cons y ys => simp at hx
  | cons x xs ih =>
      intro cs is1 xs2 is2 b1 b2 hoff hx hi
      cases xs2 with
      | nil => simp at hx
      | cons y ys =>
          cases cs with
          | nil => simpa [absorbRest] using hoff
          | cons c cs =>
              cases is1 with
              | nil =>
                  cases is2 with
                  | nil => simpa [absorbRest] using hoff
                  | cons j js => simp at hi
              | cons i is =>
                  cases is2 with
                  | nil => simp at hi
                  | cons j js =>
                      simp only [absorbRest]
                      apply ih
                      · simp [sum_offset, hoff]
                      · simpa using hx
                      · simpa using hi

lemma absorb_pair (pre : List F) (st1 st2 in1 in2 : List (Limb F))
    (b1 b2 : Builder F) (hoff : b1.offset = b2.offset)
    (hst : st1.length = st2.length) (hin : in1.length = in2.length) :
    (absorb_with_pre_constants b1 st1 in1 pre).2.offset =
      (absorb_with_pre_constants b2 st2 in2 pre).2.offset := by
  cases st1 with
  | nil =>
      cases st2 with
      | nil => simpa [absorb_with_pre_constants] using hoff
      | cons y ys => simp at hst
  | cons x xs =>
      cases st2 with
      | nil => simp at hst
      | cons y ys =>
          simp only [absorb_with_pre_constants]
          apply absorbRest_pair
          · simp [sum_offset, hoff]
          · simpa using hst
          · exact hin

lemma apply_mds_rows_pair (rows : List (List F)) :
    ∀ (st1 st2 : List (Limb F)) (b1 b2 : Builder F),
    b1.offset = b2.offset → st1.length = st2.length →
    (apply_mds_rows b1 st1 rows).2.offset = (apply_mds_rows b2 st2 rows).2.offset := by
  induction rows with
  | nil => intro _ _ _ _ hoff _; simpa [apply_mds_rows] using hoff
  | cons row rest ih =>
      intro st1 st2 b1 b2 hoff hlen
      simp only [apply_mds_rows]
      apply ih _ _ _ _ _ hlen
      simp [sum_offset, List.length_zip, hoff, hlen]

lemma sparseTail_pair (es : List F) :
    ∀ (xs1 xs2 : List (Limb F)) (c1 c2 : Limb F) (b1 b2 : Builder F),
    b1.offset = b2.offset → xs1.length = xs2.length →
    (sparseTail b1 c1 es xs1).2.offset = (sparseTail b2 c2 es xs2).2.offset := by
  induction es with
  | nil =>
      intro xs1 xs2 c1 c2 b1 b2 hoff _
      cases xs1 <;> cases xs2 <;> simpa [sparseTail] using hoff
  | cons e es ih =>
      intro xs1 xs2 c1 c2 b1 b2 hoff hlen
      cases xs1 with
      | nil =>
          cases xs2 with
          | nil => simpa [sparseTail] using hoff
          | cons y ys => simp at hlen
      | cons x xs =>
          cases xs2 with
          | nil => simp at hlen
          | cons y ys =>
              simp only [sparseTail]
              apply ih
              · simp [sum_offset, hoff]
              · simpa using hlen

lemma apply_sparse_pair (m : SparseMDSMatrix F) (st1 st2 : List (Limb F))
    (b1 b2 : Builder F) (hoff : b1.offset = b2.offset)
    (hlen : st1.length = st2.length) :
    (apply_sparse_mds b1 st1 m).2.offset = (apply_sparse_mds b2 st2 m).2.offset := by
  simp only [apply_sparse_mds]
  apply sparseTail_pair
  · simp [sum_offset, List.length_zip, hoff, hlen]
  · simp [hlen]

lemma fullRounds_pair (mds : List (List F)) (csl : List (List F)) :
    ∀ (st1 st2 : List (Limb F)) (b1 b2 : Builder F),
    b1.offset = b2.offset → st1.length = st2.length →
    (fullRounds mds b1 st1 csl).2.offset = (fullRounds mds b2 st2 csl).2.offset := by
  induction csl with
  | nil => intro _ _ _ _ hoff _; simpa [fullRounds] using hoff
  | cons cs rest ih =>
      intro st1 st2 b1 b2 hoff hlen
      simp only [fullRounds, apply_mds]
      apply ih
      · apply apply_mds_rows_pair
        · exact sbox_full_pair cs _ _ _ _ hoff hlen
        · simp [sbox_full_length, hlen]
      · simp [apply_mds_rows_length]

lemma partialRounds_pair (l : List (F × SparseMDSMatrix F)) :
    ∀ (st1 st2 : List (Limb F)) (b1 b2 : Builder F),
    b1.offset = b2.offset → st1.length = st2.length →
    (partialRounds b1 st1 l).2.offset = (partialRounds b2 st2 l).2.offset := by
  induction l with
  | nil => intro _ _ _ _ hoff _; simpa [partialRounds] using hoff
  | cons p rest ih =>
      intro st1 st2 b1 b2 hoff hlen
      obtain ⟨c, m⟩ := p
      simp only [partialRounds]
      apply ih
      · apply apply_sparse_pair
        · exact sbox_part_pair c _ _ _ _ hoff hlen
        · simp [sbox_part_length, hlen]
      · simp [apply_sparse_length, sbox_part_length, hlen]

/-- The final cursor of `permute` depends only on the specification, the
starting cursor, and the lengths of the state and input vectors — never on
the limb values. -/
lemma permute_offset_pair (spec : Spec F) (ps1 ps2 : PoseidonState F)
    (b1 b2 : Builder F) (in1 in2 : List (Limb F))
    (hoff : b1.offset = b2.offset) (hst : ps1.state.length = ps2.state.length)
    (hin : in1.length = in2.length) :
    (ps1.permute spec b1 in1).2.offset = (ps2.permute spec b2 in2).2.offset := by
  simp only [PoseidonState.permute, apply_mds]
  set a1 := absorb_with_pre_constants b1 ps1.state in1 (spec.startConsts.getD 0 []) with ha1
  set a2 := absorb_with_pre_constants b2 ps2.state in2 (spec.startConsts.getD 0 []) with ha2
  set f1 := fullRounds spec.mds a1.2 a1.1 ((spec.startConsts.drop 1).take (spec.r_f / 2 - 1)) with hf1
  set f2 := fullRounds spec.mds a2.2 a2.1 ((spec.startConsts.drop 1).take (spec.r_f / 2 - 1)) with hf2
  set s1 := sbox_full f1.2 f1.1 (spec.startConsts.getLastD []) with hs1
  set s2 := sbox_full f2.2 f2.1 (spec.startConsts.getLastD []) with hs2
  set m1 := apply_mds_rows s1.2 s1.1 spec.pre_sparse_mds with hm1
  set m2 := apply_mds_rows s2.2 s2.1 spec.pre_sparse_mds with hm2
  set q1 := partialRounds m1.2 m1.1 (spec.partialConsts.zip spec.sparse_matrices) with hq1
  set q2 := partialRounds m2.2 m2.1 (spec.partialConsts.zip spec.sparse_matrices) with hq2
  set e1 := fullRounds spec.mds q1.2 q1.1 spec.endConsts with he1
  set e2 := fullRounds spec.mds q2.2 q2.1 spec.endConsts with he2
  have h1o : a1.2.offset = a2.2.offset := by
    rw [ha1, ha2]; exact absorb_pair _ _ _ _ _ _ _ hoff hst hin
  have h1l : a1.1.length = a2.1.length := by
    rw [ha1, ha2, absorb_length, absorb_length, hst]
  have h2o : f1.2.offset = f2.2.offset := by
    rw [hf1, hf2]; exact fullRounds_pair _ _ _ _ _ _ h1o h1l
  have h2l : f1.1.length = f2.1.length := by
    rw [hf1, hf2]
    cases hc : (spec.startConsts.drop 1).take (spec.r_f / 2 - 1) with
    | nil => simpa [fullRounds] using h1l
    | cons c rest => simp [fullRounds_length_cons]
  have h3o : s1.2.offset = s2.2.offset := by
    rw [hs1, hs2]; exact sbox_full_pair _ _ _ _ _ h2o h2l
  have h3l : s1.1.length = s2.1.length := by
    rw [hs1, hs2, sbox_full_length, sbox_full_length, h2l]
  have h4o : m1.2.offset = m2.2.offset := by
    rw [hm1, hm2]; exact apply_mds_rows_pair _ _ _ _ _ h3o h3l
  have h4l : m1.1.length = m2.1.length := by
    rw [hm1, hm2, apply_mds_rows_length, apply_mds_rows_length]
  have h5o : q1.2.offset = q2.2.offset := by
    rw [hq1, hq2]; exact partialRounds_pair _ _ _ _ _ h4o h4l
  have h5l : q1.1.length = q2.1.length := by
    rw [hq1, hq2, partialRounds_length, partialRounds_length, h4l]
  have h6o : e1.2.offset = e2.2.offset := by
    rw [he1, he2]; exact fullRounds_pair _ _ _ _ _ _ h5o h5l
  have h6l : e1.1.length = e2.1.length := by
    rw [he1, he2]
    cases hc : spec.endConsts with
    | nil => simpa [fullRounds] using h5l
    | cons c rest => simp [fullRounds_length_cons]
  rw [h6l]
  apply apply_mds_rows_pair
  · exact sbox_full_pair _ _ _ _ _ h6o h6l
  · rw [sbox_full_length, sbox_full_length, h6l]

/-! ### Chip-level helper lemmas -/

lemma apply_mds_rows_cells (rows : List (List F)) :
    ∀ (b : Builder F) (st : List (Limb F)) (l : Limb F),
    l ∈ (apply_mds_rows b st rows).1 → l.cell.isSome = true := by
  induction rows with
  | nil => intro b st l h; simp [apply_mds_rows] at h
  | cons row rest ih =>
      intro b st l h
      simp only [apply_mds_rows, List.mem_cons] at h
      rcases h with h | h
      · subst h; rfl
      · exact ih _ _ _ h

lemma permute_length (ps : PoseidonState F) (spec : Spec F) (b : Builder F)
    (inputs : List (Limb F)) :
    (ps.permute spec b inputs).1.state.length = spec.mds.length := by
  simp [PoseidonState.permute, apply_mds, apply_mds_rows_length]

lemma permute_cells (ps : PoseidonState F) (spec : Spec F) (b : Builder F)
    (inputs : List (Limb F)) :
    ∀ l ∈ (ps.permute spec b inputs).1.state, l.cell.isSome = true := by
  intro l hl
  simp only [PoseidonState.permute, apply_mds] at hl
  exact apply_mds_rows_cells _ _ _ l hl

lemma getD_mem {α : Type} (l : List α) (n : Nat) (d : α) (h : n < l.length) :
    l.getD n d ∈ l := by
  induction l generalizing n with
  | nil => simp at h
  | cons x xs ih =>
      cases n with
      | zero => simp
      | succ n =>
          simp only [List.getD_cons_succ]
          exact List.mem_cons_of_mem _ (ih n (by simpa using h))

lemma getD_eq_of_lt {α : Type} (l : List α) (n : Nat) (d1 d2 : α)
    (h : n < l.length) : l.getD n d1 = l.getD n d2 := by
  induction l generalizing n with
  | nil => simp at h
  | cons x xs ih =>
      cases n with
      | zero => rfl
      | succ n =>
          simp only [List.getD_cons_succ]
          exact ih n (by simpa using h)

lemma getD_drop_one {α : Type} (l : List α) (j : Nat) (d : α) :
    (l.drop 1).getD j d = l.getD (j + 1) d := by
  cases l <;> simp

lemma selectState_value (round : Nat) (reset : Limb F) (l : List (Limb F × Limb F)) :
    ∀ b : Builder F,
    (selectState round reset b l).1.map Limb.value =
      l.map fun p => if reset.value = 0 then p.1.value else p.2.value := by
  induction l with
  | nil => intro b; simp [selectState]
  | cons p rest ih =>
      intro b
      simp [selectState, CommonGateConfig.select, ih]

lemma zip_snd_value (st dflt : List (Limb F)) (h : st.length = dflt.length) :
    ((st.zip dflt).map fun p => p.2.value) = dflt.map Limb.value := by
  induction st generalizing dflt with
  | nil =>
      cases dflt with
      | nil => simp
      | cons d ds => simp at h
  | cons x xs ih =>
      cases dflt with
      | nil => simp at h
      | cons d ds =>
          simp only [List.zip_cons_cons, List.map_cons]
          rw [ih ds (by simpa using h)]

lemma zip_fst_value (st dflt : List (Limb F)) (h : st.length = dflt.length) :
    ((st.zip dflt).map fun p => p.1.value) = st.map Limb.value := by
  induction st generalizing dflt with
  | nil => simp
  | cons x xs ih =>
      cases dflt with
      | nil => simp at h
      | cons d ds =>
          simp only [List.zip_cons_cons, List.map_cons]
          rw [ih ds (by simpa using h)]

/-- The value returned by `get_permute_result` is slot 1 of the reference
permutation of the selected (reset-or-continue) initial values. -/
lemma get_permute_result_value (chip : PoseidonChip F) (b : Builder F)
    (values : List (Limb F)) (reset : Limb F) :
    (chip.get_permute_result b values reset).1.value =
      (referencePermute chip.spec
        ((chip.poseidon_state.state.zip chip.poseidon_state.default).map
          fun p => if reset.value = 0 then p.1.value else p.2.value)
        (values.map Limb.value)).getD 1 0 := by
  simp only [PoseidonChip.get_permute_result]
  rw [value_getD, permute_value, selectState_value]

lemma selected_values_reset (chip : PoseidonChip F) (reset : Limb F)
    (hr : reset.value ≠ 0)
    (hlen : chip.poseidon_state.state.length = chip.poseidon_state.default.length) :
    ((chip.poseidon_state.state.zip chip.poseidon_state.default).map
      fun p => if reset.value = 0 then p.1.value else p.2.value) =
    chip.poseidon_state.default.map Limb.value := by
  have h : ∀ p : Limb F × Limb F,
      (if reset.value = 0 then p.1.value else p.2.value) = p.2.value := by
    intro p; simp [hr]
  simp only [h]
  exact zip_snd_value _ _ hlen

lemma selected_values_noreset (chip : PoseidonChip F) (reset : Limb F)
    (hr : reset.value = 0)
    (hlen : chip.poseidon_state.state.length = chip.poseidon_state.default.length) :
    ((chip.poseidon_state.state.zip chip.poseidon_state.default).map
      fun p => if reset.value = 0 then p.1.value else p.2.value) =
    chip.poseidon_state.state.map Limb.value := by
  have h : ∀ p : Limb F × Limb F,
      (if reset.value = 0 then p.1.value else p.2.value) = p.1.value := by
    intro p; simp [hr]
  simp only [h]
  exact zip_fst_value _ _ hlen

lemma get_permute_result_cell (chip : PoseidonChip F) (b : Builder F)
    (values : List (Limb F)) (reset : Limb F) (hm : 2 ≤ chip.spec.mds.length) :
    (chip.get_permute_result b values reset).1.cell.isSome = true := by
  simp only [PoseidonChip.get_permute_result]
  apply permute_cells
  apply getD_mem
  rw [permute_length]
  omega

lemma assign_permute_eq_ok (chip : PoseidonChip F) (b : Builder F)
    (values : List (Limb F)) (reset result : Limb F) (c1 c2 : Cell)
    (hc : result.cell = some c1)
    (hc2 : (chip.get_permute_result b values reset).1.cell = some c2)
    (hv : (chip.get_permute_result b values reset).1.value = result.value) :
    chip.assign_permute b values reset result =
      .ok ((chip.get_permute_result b values reset).2.1,
        Region.constrain_equal (chip.get_permute_result b values reset).2.2 c1 c2) := by
  simp [PoseidonChip.assign_permute, hv, hc, hc2]

lemma assign_permute_eq_panic_of_ne (chip : PoseidonChip F) (b : Builder F)
    (values : List (Limb F)) (reset result : Limb F)
    (hv : (chip.get_permute_result b values reset).1.value ≠ result.value) :
    chip.assign_permute b values reset result = .panic := by
  simp [PoseidonChip.assign_permute, hv]

lemma assign_permute_eq_panic_of_none (chip : PoseidonChip F) (b : Builder F)
    (values : List (Limb F)) (reset result : Limb F)
    (hc : result.cell = none) :
    chip.assign_permute b values reset result = .panic := by
  by_cases hv : (chip.get_permute_result b values reset).1.value = result.value
  · cases hcell : (chip.get_permute_result b values reset).1.cell <;>
      simp [PoseidonChip.assign_permute, hv, hc, hcell]
  · simp [PoseidonChip.assign_permute, hv]

lemma overwrite_eq_of_length {α : Type} (st res : List α)
    (h : res.length = st.length) : overwrite st res = res := by
  unfold overwrite
  rw [← h, List.take_length, h, List.drop_length, List.append_nil]

lemma sumValue_zip_range (st : List (Limb F)) (row : List F)
    (h : row.length = st.length) :
    sumValue (st.zip row) none =
      ∑ j ∈ Finset.range st.length, (st.getD j ⟨none, 0⟩).value * row.getD j 0 := by
  induction st generalizing row with
  | nil => simp [sumValue]
  | cons x xs ih =>
      cases row with
      | nil => simp at h
      | cons r rs =>
          rw [List.length_cons, Finset.sum_range_succ']
          simp only [List.getD_cons_succ, List.getD_cons_zero]
          rw [← ih rs (by simpa using h)]
          simp [sumValue]
          ring

lemma sparseTail_getD (es : List F) :
    ∀ (b : Builder F) (c : Limb F) (xs : List (Limb F)) (j : Nat),
    j < es.length → j < xs.length →
    ((sparseTail b c es xs).1.getD j ⟨none, 0⟩).value =
      c.value * es.getD j 0 + (xs.getD j ⟨none, 0⟩).value := by
  induction es with
  | nil => intro b c xs j h _; simp at h
  | cons e es ih =>
      intro b c xs j h1 h2
      cases xs with
      | nil => simp at h2
      | cons x xs =>
          cases j with
          | zero =>
              simp [sparseTail, CommonGateConfig.sum_with_constant, sumValue]
          | succ j =>
              simp only [sparseTail, List.getD_cons_succ]
              exact ih _ _ _ j (by simpa using h1) (by simpa using h2)

/-! ### Claim theorems -/

/-- C1: with a nonzero (true) reset flag and a claimed result carrying a cell
handle, `assign_permute` succeeds exactly when the claimed value equals slot 1
of the non-circuit reference permutation run from the default state absorbing
the same inputs in the same slot order; and the value returned by
`get_permute_result` equals that reference slot-1 output. -/
theorem assign_permute_reference_equiv
    (chip : PoseidonChip F) (b : Builder F) (values : List (Limb F))
    (reset result : Limb F) (c0 : Cell)
    (hr : reset.value ≠ 0) (hc : result.cell = some c0)
    (hlen : chip.poseidon_state.state.length = chip.poseidon_state.default.length)
    (hm : 2 ≤ chip.spec.mds.length) :
    ((chip.assign_permute b values reset result).isOk = true ↔
      result.value = (referencePermute chip.spec
        (chip.poseidon_state.default.map Limb.value)
        (values.map Limb.value)).getD 1 0)
    ∧ (chip.get_permute_result b values reset).1.value =
      (referencePermute chip.spec (chip.poseidon_state.default.map Limb.value)
        (values.map Limb.value)).getD 1 0 := by
  have hv : (chip.get_permute_result b values reset).1.value =
      (referencePermute chip.spec (chip.poseidon_state.default.map Limb.value)
        (values.map Limb.value)).getD 1 0 := by
    rw [get_permute_result_value, selected_values_reset chip reset hr hlen]
  obtain ⟨c2, hc2⟩ := Option.isSome_iff_exists.mp
    (get_permute_result_cell chip b values reset hm)
  refine ⟨⟨?_, ?_⟩, hv⟩
  · intro hok
    by_contra hne
    have hp := assign_permute_eq_panic_of_ne chip b values reset result
      (by rw [hv]; exact fun hh => hne hh.symm)
    rw [hp] at hok
    simp [BuildResult.isOk] at hok
  · intro heq
    rw [assign_permute_eq_ok chip b values reset result c0 c2 hc hc2
      (by rw [hv]; exact heq.symm)]
    rfl

/-- C2: for two chips with the same specification and the same default
values (but possibly different accumulated states), a nonzero reset flag
makes the outputs of `get_permute_result` identical for identical inputs
(the accumulated state has no influence); with reset=0, identical prior
state values plus identical inputs yield identical outputs. -/
theorem get_permute_result_reset_semantics
    (chipA chipB : PoseidonChip F) (bA bB : Builder F)
    (values : List (Limb F)) (reset : Limb F)
    (hspec : chipA.spec = chipB.spec)
    (hd : chipA.poseidon_state.default.map Limb.value =
      chipB.poseidon_state.default.map Limb.value)
    (hlA : chipA.poseidon_state.state.length = chipA.poseidon_state.default.length)
    (hlB : chipB.poseidon_state.state.length = chipB.poseidon_state.default.length) :
    (reset.value ≠ 0 →
      (chipA.get_permute_result bA values reset).1.value =
      (chipB.get_permute_result bB values reset).1.value)
    ∧ (reset.value = 0 →
      chipA.poseidon_state.state.map Limb.value =
        chipB.poseidon_state.state.map Limb.value →
      (chipA.get_permute_result bA values reset).1.value =
      (chipB.get_permute_result bB values reset).1.value) := by
  constructor
  · intro hr
    rw [get_permute_result_value, get_permute_result_value,
      selected_values_reset chipA reset hr hlA,
      selected_values_reset chipB reset hr hlB, hspec, hd]
  · intro hr hstv
    rw [get_permute_result_value, get_permute_result_value,
      selected_values_noreset chipA reset hr hlA,
      selected_values_noreset chipB reset hr hlB, hspec, hstv]

/-- C3: with a claimed result carrying a cell handle, `assign_permute`
accepts — returns Ok and emits the equality constraint between the computed
cell and the claimed cell — exactly when the claimed value equals the value
computed by the permutation; a differing claimed result yields a panic
(fatal invariant violation), never a returned recoverable error. -/
theorem assign_permute_binding (chip : PoseidonChip F) (b : Builder F)
    (values : List (Limb F)) (reset result : Limb F) (c0 : Cell)
    (hc : result.cell = some c0) (hm : 2 ≤ chip.spec.mds.length) :
    ((chip.assign_permute b values reset result).isOk = true ↔
      result.value = (chip.get_permute_result b values reset).1.value)
    ∧ (result.value ≠ (chip.get_permute_result b values reset).1.value →
        chip.assign_permute b values reset result = .panic)
    ∧ chip.assign_permute b values reset result ≠ .err
    ∧ (result.value = (chip.get_permute_result b values reset).1.value →
        ∃ c2, (chip.get_permute_result b values reset).1.cell = some c2 ∧
          chip.assign_permute b values reset result =
            .ok ((chip.get_permute_result b values reset).2.1,
              Region.constrain_equal
                (chip.get_permute_result b values reset).2.2 c0 c2)) := by
  obtain ⟨c2, hc2⟩ := Option.isSome_iff_exists.mp
    (get_permute_result_cell chip b values reset hm)
  by_cases hv : result.value = (chip.get_permute_result b values reset).1.value
  · have hok := assign_permute_eq_ok chip b values reset result c0 c2 hc hc2 hv.symm
    refine ⟨⟨fun _ => hv, fun _ => by rw [hok]; rfl⟩, fun hne => absurd hv hne, ?_, ?_⟩
    · rw [hok]; exact fun hcon => BuildResult.noConfusion hcon
    · intro _; exact ⟨c2, hc2, hok⟩
  · have hp := assign_permute_eq_panic_of_ne chip b values reset result
      (fun hh => hv hh.symm)
    refine ⟨⟨?_, fun heq => absurd heq hv⟩, fun _ => hp, ?_,
      fun heq => absurd heq hv⟩
    · intro hok; rw [hp] at hok; simp [BuildResult.isOk] at hok
    · rw [hp]; exact fun hcon => BuildResult.noConfusion hcon

/-- C4: the S-box helper emits exactly three chained multiplicative
constraint rows — `xx = x*x`, then `x4 = xx*xx`, then `x5 = x*x4 + c` —
and the returned limb's value is `x^5 + c`; no single exponentiation
primitive exists in the emitted trace. -/
theorem x_power5_constraint_shape (b : Builder F) (x : Limb F) (c : F) :
    (x_power5_with_constant b x c).1.value = x.value ^ 5 + c
    ∧ (x_power5_with_constant b x c).2.trace =
      Gate.line [⟨some (b.offset + 6), x.value⟩,
          ⟨some (b.offset + 7), x.value * x.value * (x.value * x.value)⟩,
          ⟨some (b.offset + 8), x.value * x.value * (x.value * x.value) * x.value + c⟩]
        [none, none, none, none, some (-1), none, some 1, none, some c] ::
      Gate.line [⟨some (b.offset + 3), x.value * x.value⟩,
          ⟨some (b.offset + 4), x.value * x.value⟩,
          ⟨some (b.offset + 5), x.value * x.value * (x.value * x.value)⟩]
        [none, none, none, none, some (-1), none, some 1, none, none] ::
      Gate.line [⟨some b.offset, x.value⟩, ⟨some (b.offset + 1), x.value⟩,
          ⟨some (b.offset + 2), x.value * x.value⟩]
        [none, none, none, none, some (-1), none, some 1, none, none] ::
      b.trace
    ∧ (x_power5_with_constant b x c).2.offset = b.offset + 9 := by
  refine ⟨x_power5_value b x c, ?_, x_power5_offset b x c⟩
  rfl

/-- C5: `apply_sparse_mds` sets new slot 0 to the dense linear combination
of all old slots weighted by the matrix's row vector, and each other new
slot `i` to `old_slot0 * colHat[i-1] + old_slot[i]` using the pre-update
slot 0, preserving the state length. -/
theorem apply_sparse_mds_spec (b : Builder F) (st : List (Limb F))
    (m : SparseMDSMatrix F)
    (hrow : m.row.length = st.length)
    (hhat : m.col_hat.length = st.length - 1)
    (hne : 1 ≤ st.length) :
    (apply_sparse_mds b st m).1.length = st.length
    ∧ ((apply_sparse_mds b st m).1.getD 0 ⟨none, 0⟩).value =
        ∑ j ∈ Finset.range st.length,
          (st.getD j ⟨none, 0⟩).value * m.row.getD j 0
    ∧ ∀ i, 1 ≤ i → i < st.length →
        ((apply_sparse_mds b st m).1.getD i ⟨none, 0⟩).value =
          (st.getD 0 ⟨none, 0⟩).value * m.col_hat.getD (i - 1) 0 +
            (st.getD i ⟨none, 0⟩).value := by
  have hres : (apply_sparse_mds b st m).1 =
      (CommonGateConfig.sum_with_constant b (st.zip m.row) none).1 ::
      (sparseTail (CommonGateConfig.sum_with_constant b (st.zip m.row) none).2
        (st.getD 0 ⟨none, 0⟩) m.col_hat (st.drop 1)).1 := by
    simp only [apply_sparse_mds]
    apply overwrite_eq_of_length
    simp [sparseTail_length, List.length_drop, hhat]
    omega
  refine ⟨apply_sparse_length b st m, ?_, ?_⟩
  · rw [hres]
    simp only [List.getD_cons_zero]
    exact sumValue_zip_range st m.row hrow
  · intro i h1 h2
    obtain ⟨j, rfl⟩ : ∃ j, i = j + 1 := ⟨i - 1, by omega⟩
    rw [hres]
    simp only [List.getD_cons_succ, Nat.add_sub_cancel]
    rw [sparseTail_getD m.col_hat _ _ _ j (by omega)
      (by simp only [List.length_drop]; omega), getD_drop_one]

/-- C6: `initialize` resets the write cursor to 0, allocates a constrained
zero, builds `default` as the capacity marker `2^64` in slot 0 followed by
zeros, copies `default` into `state`, and allocates exactly three
domain-separation prefix constants in the order challenge, point, scalar
(at cells 2, 3, 4, leaving the cursor at 5). -/
theorem initialize_spec (ps : PoseidonState F) (b : Builder F)
    (hne : 1 ≤ ps.state.length) :
    ( PoseidonState.initialize ps b).1.default =
      (⟨some 1, ((2 ^ 64 : Nat) : F)⟩ : Limb F) ::
        List.replicate (ps.state.length - 1) (⟨some 0, (0 : F)⟩ : Limb F)
    ∧ ( PoseidonState.initialize ps b).1.state = ( PoseidonState.initialize ps b).1.default
    ∧ ( PoseidonState.initialize ps b).1.prefix_consts =
        [(⟨some 2, ((PREFIX_CHALLENGE : Nat) : F)⟩ : Limb F),
         ⟨some 3, ((PREFIX_POINT : Nat) : F)⟩,
         ⟨some 4, ((PREFIX_SCALAR : Nat) : F)⟩]
    ∧ ( PoseidonState.initialize ps b).2.offset = 5 := by
  obtain ⟨n, hn⟩ : ∃ n, ps.state.length = n + 1 := ⟨ps.state.length - 1, by omega⟩
  refine ⟨?_, rfl, rfl, rfl⟩
  show (List.replicate ps.state.length (⟨some 0, (0 : F)⟩ : Limb F)).set 0
      ⟨some 1, ((2 ^ 64 : Nat) : F)⟩ =
    (⟨some 1, ((2 ^ 64 : Nat) : F)⟩ : Limb F) ::
      List.replicate (ps.state.length - 1) (⟨some 0, (0 : F)⟩ : Limb F)
  rw [hn, List.replicate_succ, List.set_cons_zero]
  simp

/-- C7: for a fixed specification, the number of constraint rows emitted by
one `permute` call — the increase of the offset cursor — is the same for
all input values and all starting state values of the same shape: the round
schedule never branches on witness data. -/
theorem permute_row_count_deterministic (spec : Spec F)
    (ps1 ps2 : PoseidonState F) (b1 b2 : Builder F) (in1 in2 : List (Limb F))
    (hoff : b1.offset = b2.offset) (hst : ps1.state.length = ps2.state.length)
    (hin : in1.length = in2.length) :
    (ps1.permute spec b1 in1).2.offset - b1.offset =
      (ps2.permute spec b2 in2).2.offset - b2.offset := by
  rw [permute_offset_pair spec ps1 ps2 b1 b2 in1 in2 hoff hst hin, hoff]

/-- C8: `get_permute_result` returns the state element at index 1 (the
second slot) of the permuted state — for any choice of fallback element,
the returned limb is the entry at index 1, never slot 0. -/
theorem get_permute_result_slot_one (chip : PoseidonChip F) (b : Builder F)
    (values : List (Limb F)) (reset : Limb F)
    (hm : 2 ≤ chip.spec.mds.length) :
    ∀ d : Limb F,
      (chip.get_permute_result b values reset).1 =
        (chip.get_permute_result b values reset).2.1.poseidon_state.state.getD 1 d := by
  intro d
  simp only [PoseidonChip.get_permute_result]
  apply getD_eq_of_lt
  rw [permute_length]
  omega

/-- C9: `permute` and `get_permute_result` leave the `default` vector and
the prefix-constant list unchanged (only `state` is overwritten), and when
the specification's MDS matrix has the state width, the new state keeps the
same length as `default`. -/
theorem permute_frame (ps : PoseidonState F) (spec : Spec F) (b1 : Builder F)
    (inputs : List (Limb F)) (chip : PoseidonChip F) (b2 : Builder F)
    (values : List (Limb F)) (reset : Limb F) :
    (ps.permute spec b1 inputs).1.default = ps.default
    ∧ (ps.permute spec b1 inputs).1.prefix_consts = ps.prefix_consts
    ∧ (chip.get_permute_result b2 values reset).2.1.poseidon_state.default =
        chip.poseidon_state.default
    ∧ (chip.get_permute_result b2 values reset).2.1.poseidon_state.prefix_consts =
        chip.poseidon_state.prefix_consts
    ∧ (spec.mds.length = ps.default.length →
        (ps.permute spec b1 inputs).1.state.length =
          (ps.permute spec b1 inputs).1.default.length)
    ∧ (chip.spec.mds.length = chip.poseidon_state.default.length →
        (chip.get_permute_result b2 values reset).2.1.poseidon_state.state.length =
          (chip.get_permute_result b2 values reset).2.1.poseidon_state.default.length) := by
  refine ⟨rfl, rfl, rfl, rfl, ?_, ?_⟩
  · intro h
    rw [permute_length]
    exact h
  · intro h
    simp only [PoseidonChip.get_permute_result]
    rw [permute_length]
    exact h

/-- C10: `assign_permute` unconditionally unwraps the claimed result's cell
handle: whenever the claimed limb carries no cell handle, the call panics —
it never returns a recoverable error — including when the values match. -/
theorem assign_permute_none_cell_panics (chip : PoseidonChip F) (b : Builder F)
    (values : List (Limb F)) (reset result : Limb F)
    (hc : result.cell = none) :
    chip.assign_permute b values reset result = .panic
    ∧ chip.assign_permute b values reset result ≠ .err := by
  have h := assign_permute_eq_panic_of_none chip b values reset result hc
  exact ⟨h, by rw [h]; exact fun hcon => BuildResult.noConfusion hcon⟩

/-! ### Concrete instances

A small concrete algorithm specification over `ZMod 101` (width 2, rate 1)
and two chips sharing it, used to instantiate the theorems on explicit
inputs. -/

/-- A small concrete algorithm specification over `ZMod 101`. -/
def testSpec : Spec (ZMod 101) where
  r_f := 2
  mds := [[1, 2], [3, 4]]
  pre_sparse_mds := [[5, 6], [7, 8]]
  sparse_matrices := [⟨[9, 10], [11]⟩]
  startConsts := [[12, 13], [14, 15]]
  partialConsts := [16]
  endConsts := [[17, 18]]

/-- A chip bound to `testSpec` with some accumulated sponge state. -/
def testChip : PoseidonChip (ZMod 101) where
  spec := testSpec
  poseidon_state :=
    { state := [⟨some 30, 7⟩, ⟨some 31, 8⟩]
      default := [⟨some 0, 3⟩, ⟨some 1, 0⟩]
      prefix_consts := [] }
  round := 0

/-- A second chip with the same specification and default but a different
accumulated state. -/
def testChipB : PoseidonChip (ZMod 101) where
  spec := testSpec
  poseidon_state :=
    { state := [⟨some 40, 55⟩, ⟨some 41, 66⟩]
      default := [⟨some 0, 3⟩, ⟨some 1, 0⟩]
      prefix_consts := [] }
  round := 0

/-- A fresh builder. -/
def testBuilder : Builder (ZMod 101) := ⟨0, []⟩

/-- One rate-worth of input limbs. -/
def testInputs : List (Limb (ZMod 101)) := [⟨some 50, 5⟩]

/-- A nonzero (true) reset flag limb. -/
def testReset : Limb (ZMod 101) := ⟨some 60, 1⟩

/-- A claimed-result limb carrying a cell handle whose value is the
reference permutation's slot-1 output for the default state. -/
def testResult : Limb (ZMod 101) :=
  ⟨some 70, (referencePermute testSpec
    (testChip.poseidon_state.default.map Limb.value)
    (testInputs.map Limb.value)).getD 1 0⟩

/-- A claimed-result limb with the matching value but no cell handle. -/
def testResultNone : Limb (ZMod 101) :=
  ⟨none, (referencePermute testSpec
    (testChip.poseidon_state.default.map Limb.value)
    (testInputs.map Limb.value)).getD 1 0⟩

/-- The sparse matrix of `testSpec`, with its row and column-hat vectors. -/
def testSparse : SparseMDSMatrix (ZMod 101) := ⟨[9, 10], [11]⟩

/-- The state list of `testChip`. -/
def testState : List (Limb (ZMod 101)) := [⟨some 30, 7⟩, ⟨some 31, 8⟩]

/-! ### Witnesses -/

/-- Witness for C1 at the concrete chip, inputs and claimed result. -/
theorem assign_permute_reference_equiv_witness :
    testReset.value ≠ 0 ∧ testResult.cell = some 70 ∧
    testChip.poseidon_state.state.length = testChip.poseidon_state.default.length ∧
    2 ≤ testChip.spec.mds.length ∧
    (((testChip.assign_permute testBuilder testInputs testReset testResult).isOk = true ↔
      testResult.value = (referencePermute testChip.spec
        (testChip.poseidon_state.default.map Limb.value)
        (testInputs.map Limb.value)).getD 1 0)
    ∧ (testChip.get_permute_result testBuilder testInputs testReset).1.value =
      (referencePermute testChip.spec (testChip.poseidon_state.default.map Limb.value)
        (testInputs.map Limb.value)).getD 1 0) :=
  ⟨by decide, by decide, by decide, by decide,
    assign_permute_reference_equiv testChip testBuilder testInputs testReset testResult 70
      (by decide) (by decide) (by decide) (by decide)⟩

/-- Witness for C2 at two chips with different accumulated states. -/
theorem get_permute_result_reset_semantics_witness :
    testChip.spec = testChipB.spec ∧
    testChip.poseidon_state.default.map Limb.value =
      testChipB.poseidon_state.default.map Limb.value ∧
    testChip.poseidon_state.state.length = testChip.poseidon_state.default.length ∧
    testChipB.poseidon_state.state.length = testChipB.poseidon_state.default.length ∧
    ((testReset.value ≠ 0 →
      (testChip.get_permute_result testBuilder testInputs testReset).1.value =
      (testChipB.get_permute_result testBuilder testInputs testReset).1.value)
    ∧ (testReset.value = 0 →
      testChip.poseidon_state.state.map Limb.value =
        testChipB.poseidon_state.state.map Limb.value →
      (testChip.get_permute_result testBuilder testInputs testReset).1.value =
      (testChipB.get_permute_result testBuilder testInputs testReset).1.value)) :=
  ⟨by decide, by decide, by decide, by decide,
    get_permute_result_reset_semantics testChip testChipB testBuilder testBuilder
      testInputs testReset (by decide) (by decide) (by decide) (by decide)⟩

/-- Witness for C3 at the concrete chip and claimed result. -/
theorem assign_permute_binding_witness :
    testResult.cell = some 70 ∧ 2 ≤ testChip.spec.mds.length ∧
    (((testChip.assign_permute testBuilder testInputs testReset testResult).isOk = true ↔
      testResult.value =
        (testChip.get_permute_result testBuilder testInputs testReset).1.value)
    ∧ (testResult.value ≠
        (testChip.get_permute_result testBuilder testInputs testReset).1.value →
        testChip.assign_permute testBuilder testInputs testReset testResult = .panic)
    ∧ testChip.assign_permute testBuilder testInputs testReset testResult ≠ .err
    ∧ (testResult.value =
        (testChip.get_permute_result testBuilder testInputs testReset).1.value →
        ∃ c2, (testChip.get_permute_result testBuilder testInputs testReset).1.cell =
            some c2 ∧
          testChip.assign_permute testBuilder testInputs testReset testResult =
            .ok ((testChip.get_permute_result testBuilder testInputs testReset).2.1,
              Region.constrain_equal
                (testChip.get_permute_result testBuilder testInputs testReset).2.2
                70 c2))) :=
  ⟨by decide, by decide,
    assign_permute_binding testChip testBuilder testInputs testReset testResult 70
      (by decide) (by decide)⟩

/-- Witness for C5 at a concrete state and sparse matrix. -/
theorem apply_sparse_mds_spec_witness :
    testSparse.row.length = testState.length ∧
    testSparse.col_hat.length = testState.length - 1 ∧
    1 ≤ testState.length ∧
    ((apply_sparse_mds testBuilder testState testSparse).1.length = testState.length
    ∧ ((apply_sparse_mds testBuilder testState testSparse).1.getD 0 ⟨none, 0⟩).value =
        ∑ j ∈ Finset.range testState.length,
          (testState.getD j ⟨none, 0⟩).value * testSparse.row.getD j 0
    ∧ ∀ i, 1 ≤ i → i < testState.length →
        ((apply_sparse_mds testBuilder testState testSparse).1.getD i ⟨none, 0⟩).value =
          (testState.getD 0 ⟨none, 0⟩).value * testSparse.col_hat.getD (i - 1) 0 +
            (testState.getD i ⟨none, 0⟩).value) :=
  ⟨by decide, by decide, by decide,
    apply_sparse_mds_spec testBuilder testState testSparse
      (by decide) (by decide) (by decide)⟩

/-- Witness for C6 at the concrete state vector. -/
theorem initialize_spec_witness :
    1 ≤ testChip.poseidon_state.state.length ∧
    (( PoseidonState.initialize testChip.poseidon_state testBuilder).1.default =
      (⟨some 1, ((2 ^ 64 : Nat) : ZMod 101)⟩ : Limb (ZMod 101)) ::
        List.replicate (testChip.poseidon_state.state.length - 1)
          (⟨some 0, (0 : ZMod 101)⟩ : Limb (ZMod 101))
    ∧ ( PoseidonState.initialize testChip.poseidon_state testBuilder).1.state =
        ( PoseidonState.initialize testChip.poseidon_state testBuilder).1.default
    ∧ ( PoseidonState.initialize testChip.poseidon_state testBuilder).1.prefix_consts =
        [(⟨some 2, ((PREFIX_CHALLENGE : Nat) : ZMod 101)⟩ : Limb (ZMod 101)),
         ⟨some 3, ((PREFIX_POINT : Nat) : ZMod 101)⟩,
         ⟨some 4, ((PREFIX_SCALAR : Nat) : ZMod 101)⟩]
    ∧ ( PoseidonState.initialize testChip.poseidon_state testBuilder).2.offset = 5) :=
  ⟨by decide, initialize_spec testChip.poseidon_state testBuilder (by decide)⟩

/-- Witness for C7: two runs from states and inputs of the same shape but
different values emit the same number of rows. -/
theorem permute_row_count_deterministic_witness :
    testBuilder.offset = testBuilder.offset ∧
    testChip.poseidon_state.state.length = testChipB.poseidon_state.state.length ∧
    testInputs.length = testInputs.length ∧
    (testChip.poseidon_state.permute testSpec testBuilder testInputs).2.offset -
        testBuilder.offset =
      (testChipB.poseidon_state.permute testSpec testBuilder testInputs).2.offset -
        testBuilder.offset :=
  ⟨rfl, by decide, rfl,
    permute_row_count_deterministic testSpec testChip.poseidon_state
      testChipB.poseidon_state testBuilder testBuilder testInputs testInputs
      rfl (by decide) rfl⟩

/-- Witness for C8 at the concrete chip and an arbitrary fallback limb. -/
theorem get_permute_result_slot_one_witness :
    2 ≤ testChip.spec.mds.length ∧
    (testChip.get_permute_result testBuilder testInputs testReset).1 =
      (testChip.get_permute_result testBuilder testInputs
        testReset).2.1.poseidon_state.state.getD 1 ⟨some 99, 42⟩ :=
  ⟨by decide,
    get_permute_result_slot_one testChip testBuilder testInputs testReset
      (by decide) ⟨some 99, 42⟩⟩

/-- Witness for C9 at the concrete chip, with the length implication
discharged. -/
theorem permute_frame_witness :
    (testChip.poseidon_state.permute testSpec testBuilder testInputs).1.default =
      testChip.poseidon_state.default
    ∧ (testChip.poseidon_state.permute testSpec testBuilder testInputs).1.prefix_consts =
      testChip.poseidon_state.prefix_consts
    ∧ (testChip.get_permute_result testBuilder testInputs
        testReset).2.1.poseidon_state.default = testChip.poseidon_state.default
    ∧ (testChip.get_permute_result testBuilder testInputs
        testReset).2.1.poseidon_state.prefix_consts =
      testChip.poseidon_state.prefix_consts
    ∧ (testChip.poseidon_state.permute testSpec testBuilder testInputs).1.state.length =
      (testChip.poseidon_state.permute testSpec testBuilder testInputs).1.default.length
    ∧ (testChip.get_permute_result testBuilder testInputs
        testReset).2.1.poseidon_state.state.length =
      (testChip.get_permute_result testBuilder testInputs
        testReset).2.1.poseidon_state.default.length :=
  ⟨(permute_frame testChip.poseidon_state testSpec testBuilder testInputs testChip
      testBuilder testInputs testReset).1,
   (permute_frame testChip.poseidon_state testSpec testBuilder testInputs testChip
      testBuilder testInputs testReset).2.1,
   (permute_frame testChip.poseidon_state testSpec testBuilder testInputs testChip
      testBuilder testInputs testReset).2.2.1,
   (permute_frame testChip.poseidon_state testSpec testBuilder testInputs testChip
      testBuilder testInputs testReset).2.2.2.1,
   (permute_frame testChip.poseidon_state testSpec testBuilder testInputs testChip
      testBuilder testInputs testReset).2.2.2.2.1 (by decide),
   (permute_frame testChip.poseidon_state testSpec testBuilder testInputs testChip
      testBuilder testInputs testReset).2.2.2.2.2 (by decide)⟩

/-- Witness for C10: a claimed result with a matching value but no cell
handle makes `assign_permute` panic. -/
theorem assign_permute_none_cell_panics_witness :
    testResultNone.cell = none ∧
    (testChip.assign_permute testBuilder testInputs testReset testResultNone = .panic
    ∧ testChip.assign_permute testBuilder testInputs testReset testResultNone ≠ .err) :=
  ⟨by decide,
    assign_permute_none_cell_panics testChip testBuilder testInputs testReset
      testResultNone (by decide)⟩

end ZkWasmPoseidon
